import Mathlib

/-!
Verification of the block-editor document model of `src/pages/playground.tsx`.

The document state is `{ title, blocks: { order: string[], data: Record<id, Block> } }`.
Block ids (cuids in the source) are modelled as naturals, drawn from a counter so
that freshness of `cuid()` is explicit.  A block's stored content (a tiptap
`JSONContent` tree: a `doc` node whose children are text blocks) is modelled by
the list of its children's plain texts.  `Record`s are modelled as association
lists with the JS semantics: property read is `List.lookup`, property write
rewrites the entry in place, `delete` removes the key.

A live tiptap editor session (`Editor`) is modelled by `EditorState`: the list of
paragraph texts plus a caret.  ProseMirror's flat document positions are
modelled as (paragraph index, offset-in-paragraph) pairs, which carry the same
information for the commands the source uses (`selectTextblockEnd`,
`insertContent`, `setTextSelection`, `enter`).  Operations that dereference a
missing editor handle or a missing `data` entry in JS raise a `TypeError`; they
are modelled in `Except JsError`.
-/

namespace Mdxcity

/-- Stored content of one block: the children of its tiptap `doc` node, each
modelled by its text. -/
structure Block where
  content : List String
deriving DecidableEq, Repr

/-- The `blocks` field of the document: render order plus id-keyed data. -/
structure Blocks where
  order : List Nat
  data : List (Nat × Block)
deriving DecidableEq, Repr

/-- The whole document (`Doc` in the source). -/
structure Doc where
  title : String
  blocks : Blocks
deriving DecidableEq, Repr

/-- Keys of a `Record` modelled as an association list. -/
def recKeys (data : List (Nat × Block)) : List Nat :=
  data.map Prod.fst

/-- JS `delete data[id]`. -/
def removeKey (data : List (Nat × Block)) (id : Nat) : List (Nat × Block) :=
  data.filter (fun p => p.1 != id)

/-- JS `data[id] = b` for a key already present: rewrite the entry in place. -/
def setKey (data : List (Nat × Block)) (id : Nat) (b : Block) : List (Nat × Block) :=
  data.map (fun p => if p.1 = id then (id, b) else p)

/-- JS `arr.splice(idx, 0, x)` for a non-negative index: the start index is
clamped to the array length (so an out-of-range index appends). -/
def spliceInsert (l : List α) (idx : Nat) (x : α) : List α :=
  l.insertIdx (min idx l.length) x

/-- `defaultBlock()` of the source: a fresh id paired with a single paragraph
`type here to get started (<id>)`. -/
def defaultBlock (blockId : Nat) : Block :=
  ⟨["type here to get started (" ++ toString blockId ++ ")"]⟩

/-- `initialDoc` of the source: title `testing`, a single default block. -/
def initialDoc : Doc :=
  { title := "testing"
    blocks :=
      { order := [0]
        data := [(0, defaultBlock 0)] } }

/-- `insertNewBlock(idx)`: put a fresh default block into `data` and splice its
id into `order` at `idx`. -/
def insertNewBlock (doc : Doc) (newBlockId : Nat) (idx : Nat) : Doc :=
  { doc with
    blocks :=
      { order := spliceInsert doc.blocks.order idx newBlockId
        data := (newBlockId, defaultBlock newBlockId) :: doc.blocks.data } }

/-- The document update of the `onDelete` intent handler, together with the id
passed to `focusBlock` (if any).  The focus target is read from the
pre-deletion `doc.blocks.order`, exactly as the source closure does. -/
def onDelete (doc : Doc) (blockIdx : Nat) (id : Nat) : Doc × Option Nat :=
  let newDoc : Doc :=
    { doc with
      blocks :=
        { order := doc.blocks.order.eraseIdx blockIdx
          data := removeKey doc.blocks.data id } }
  let blockIndexToFocus := if blockIdx ≥ 1 then blockIdx - 1 else 0
  let blockIdToFocus := doc.blocks.order[blockIndexToFocus]?
  (newDoc, blockIdToFocus)

/-- JS `order.indexOf(x)`, with `none` for `-1`. -/
def jsIndexOf (l : List Nat) (x : Nat) : Option Nat :=
  l.findIdx? (fun y => y == x)

/-- The `onDragEnd` handler: no-op without an `over` target, else
`order.splice(newIndex, 0, order.splice(oldIndex, 1)[0])` with JS index
clamping (`-1` counts from the end).  When `order` is empty the inner splice
removes nothing; that case is unreachable (with no sortable items dnd-kit
delivers no drag events) and is modelled as a no-op. -/
def onDragEnd (doc : Doc) (activeId : Nat) (overId? : Option Nat) : Doc :=
  match overId? with
  | none => doc
  | some overId =>
    let order := doc.blocks.order
    let oldIndex := jsIndexOf order activeId
    let newIndex := jsIndexOf order overId
    let oldStart := match oldIndex with
      | some i => i
      | none => order.length - 1
    match order[oldStart]? with
    | none => doc
    | some moved =>
      let rest := order.eraseIdx oldStart
      let newStart := match newIndex with
        | some i => min i rest.length
        | none => rest.length - 1
      { doc with blocks := { doc.blocks with order := rest.insertIdx newStart moved } }

/-- JS runtime failure (dereferencing `undefined`). -/
inductive JsError where
  | typeError
deriving DecidableEq, Repr

/-- The `onChange` intent handler (`updateBlockContent`):
`draft.blocks.data[id].content = value`.  When `id` is absent,
`draft.blocks.data[id]` is `undefined` and the property write throws. -/
def updateBlockContent (doc : Doc) (id : Nat) (value : List String) : Except JsError Doc :=
  match doc.blocks.data.lookup id with
  | none => .error .typeError
  | some _ =>
    .ok { doc with blocks := { doc.blocks with data := setKey doc.blocks.data id ⟨value⟩ } }

/-! ## Editor sessions -/

/-- A live tiptap editor session: paragraph texts plus caret (paragraph index,
offset inside that paragraph) and focus flag. -/
structure EditorState where
  paras : List String
  caretPara : Nat
  caretOff : Nat
  focused : Bool
deriving DecidableEq, Repr

/-- The paragraph the caret sits in. -/
def EditorState.curPara (e : EditorState) : String :=
  e.paras.getD e.caretPara ""

/-- `editor.getText()`: tiptap joins block texts with a double newline. -/
def EditorState.getText (e : EditorState) : String :=
  String.intercalate "\n\n" e.paras

/-- `.focus()`. -/
def EditorState.focus (e : EditorState) : EditorState :=
  { e with focused := true }

/-- `.selectTextblockEnd()`: caret to the end of the current textblock. -/
def EditorState.selectTextblockEnd (e : EditorState) : EditorState :=
  { e with caretOff := e.curPara.length }

/-- `.selectTextblockStart()`: caret to the start of the current textblock. -/
def EditorState.selectTextblockStart (e : EditorState) : EditorState :=
  { e with caretOff := 0 }

/-- `.insertContent(text)` for plain text: splice `text` into the caret's
paragraph at the caret offset; the caret ends up after the insertion. -/
def EditorState.insertContent (e : EditorState) (text : String) : EditorState :=
  let p := e.curPara
  { e with
    paras := e.paras.set e.caretPara (p.take e.caretOff ++ text ++ p.drop e.caretOff)
    caretOff := e.caretOff + text.length }

/-- `.setTextSelection(pos)`: restore a previously read caret position. -/
def EditorState.setTextSelection (e : EditorState) (pi off : Nat) : EditorState :=
  { e with caretPara := pi, caretOff := off }

/-- `editor.commands.enter()`: split the caret's textblock at the caret; the
caret moves to the start of the new block. -/
def EditorState.enter (e : EditorState) : EditorState :=
  let p := e.curPara
  { paras :=
      e.paras.take e.caretPara
        ++ [p.take e.caretOff, p.drop e.caretOff]
        ++ e.paras.drop (e.caretPara + 1)
    caretPara := e.caretPara + 1
    caretOff := 0
    focused := e.focused }

/-- `editor.commands.setContent(json)`: replace the session content (the
selection collapses to the document start). -/
def EditorState.setContent (e : EditorState) (paras : List String) : EditorState :=
  { paras := paras, caretPara := 0, caretOff := 0, focused := e.focused }

/-- The `editors.current` registry: id → live handle. -/
def Editors := List (Nat × EditorState)

/-- Registry lookup, `editors.current[id]`. -/
def Editors.lookup (eds : Editors) (id : Nat) : Option EditorState :=
  List.lookup id eds

/-- Mutating a session through a handle obtained from the registry: the entry
for `id` now holds the new state. -/
def Editors.set (eds : Editors) (id : Nat) (st : EditorState) : Editors :=
  List.map (fun p => if p.1 = id then (id, st) else p) eds

/-! ## Cross-block handlers -/

/-- The `position` argument of `focusBlock`. -/
inductive FocusPos where
  | front
  | back
  | none
deriving DecidableEq, Repr

/-- The body of `focusBlock`'s timer: guard the missing or already-focused
handle, else focus and optionally move the caret. -/
def focusBlock (eds : Editors) (id : Nat) (position : FocusPos) : Editors :=
  match eds.lookup id with
  | Option.none => eds
  | Option.some editor =>
    if editor.focused then eds
    else
      let editor := editor.focus
      let editor :=
        match position with
        | .front => editor.selectTextblockStart
        | .back => editor.selectTextblockEnd
        | .none => editor
      eds.set id editor

/-- The `onSplit` intent handler at render index `blockIdx` for block `id`;
`newBlockId` is the cuid `blockFromContent` draws.  Returns the new document,
the registry after `setContent` on the source session, and the id handed to
`focusBlock`.  `editor.commands.enter()` on an unregistered handle throws, as
does the `data[id].content` write for an absent id. -/
def onSplit (doc : Doc) (eds : Editors) (blockIdx : Nat) (id : Nat) (newBlockId : Nat) :
    Except JsError (Doc × Editors × Nat) :=
  match eds.lookup id with
  | Option.none => .error .typeError
  | Option.some editor =>
    let editor := editor.enter
    let blockJson := editor.paras
    let newBlockContent := (blockJson[1]?).toList
    let blockJson := blockJson.eraseIdx 1
    let editor := editor.setContent blockJson
    let eds := eds.set id editor
    match doc.blocks.data.lookup id with
    | Option.none => .error .typeError
    | Option.some _ =>
      let data := setKey doc.blocks.data id ⟨blockJson⟩
      let doc :=
        { doc with
          blocks :=
            { order := spliceInsert doc.blocks.order (blockIdx + 1) newBlockId
              data := (newBlockId, ⟨newBlockContent⟩) :: data } }
      .ok (doc, eds, newBlockId)

/-- Direction argument of the merge intent. -/
inductive MergeDir where
  | before
  | after
deriving DecidableEq, Repr

/-- The `onMerge` intent handler at render index `blockIdx` for block `id`.

`before`: no-op when `blockIdx ≤ 0`; else read the current session's text,
append it at the end of the previous session with the caret restored to the
pre-insertion boundary, and drop block `id` from `order`/`data`.

`after`: no-op when `blockIdx ≥ order.length - 1`; else the source fetches the
next block's handle but never uses it — it reads the *current* session's text,
appends it to the current session itself, and drops the next block from
`order`/`data`.  Dereferencing an unregistered current (resp. previous) handle
throws. -/
def onMerge (doc : Doc) (eds : Editors) (blockIdx : Nat) (id : Nat) (dir : MergeDir) :
    Except JsError (Doc × Editors) :=
  match dir with
  | .before =>
    if blockIdx = 0 then .ok (doc, eds)
    else
      match eds.lookup id with
      | Option.none => .error .typeError
      | Option.some currEditor =>
        let text := currEditor.getText
        let prevId? := doc.blocks.order[blockIdx - 1]?
        match prevId?.bind (fun pid => (eds.lookup pid).map (fun e => (pid, e))) with
        | Option.none => .error .typeError
        | Option.some (prevId, prevEditor) =>
          let prevEditor := prevEditor.focus.selectTextblockEnd
          let selection := (prevEditor.caretPara, prevEditor.caretOff)
          let prevEditor := (prevEditor.insertContent text).setTextSelection selection.1 selection.2
          let eds := eds.set prevId prevEditor
          let doc :=
            { doc with
              blocks :=
                { order := doc.blocks.order.eraseIdx blockIdx
                  data := removeKey doc.blocks.data id } }
          .ok (doc, eds)
  | .after =>
    if blockIdx + 1 ≥ doc.blocks.order.length then .ok (doc, eds)
    else
      match eds.lookup id with
      | Option.none => .error .typeError
      | Option.some currEditor =>
        let nextIdx := blockIdx + 1
        let nextId := doc.blocks.order.getD nextIdx 0
        let text := currEditor.getText
        let currEditor := currEditor.focus.selectTextblockEnd
        let selection := (currEditor.caretPara, currEditor.caretOff)
        let currEditor := (currEditor.insertContent text).setTextSelection selection.1 selection.2
        let eds := eds.set id currEditor
        let doc :=
          { doc with
            blocks :=
              { order := doc.blocks.order.eraseIdx nextIdx
                data := removeKey doc.blocks.data nextId } }
        .ok (doc, eds)

/-! ## Keyboard interception (`onKeydown` of the Block unit) -/

/-- Intents a Block unit can emit. -/
inductive Intent where
  | split
  | delete
  | merge (dir : MergeDir)
deriving DecidableEq, Repr

/-- The fields of the DOM `KeyboardEvent` the handler reads. -/
structure KeyEvent where
  key : String
  shiftKey : Bool
  ctrlKey : Bool
  metaKey : Bool
  altKey : Bool
deriving DecidableEq, Repr

/-- Outcome of one `keydown`: whether `stopEvent()` ran (default prevented,
propagation stopped) and which intent, if any, was emitted. -/
structure KeyResult where
  prevented : Bool
  intent : Option Intent
deriving DecidableEq, Repr

/-- The capture-phase `keydown` interceptor.  `isEmpty` is `editor.isEmpty`,
`headPos` is `editor.state.selection.$head.pos`, and `targetTextLen?` is
`event.target.textContent?.length ?? 0` (`none` when `event.target` is null). -/
def onKeydown (ev : KeyEvent) (isEmpty : Bool) (headPos : Nat)
    (targetTextLen? : Option Nat) : KeyResult :=
  if ev.key = "Enter" && !ev.shiftKey then
    if ev.ctrlKey || ev.metaKey || ev.altKey then
      { prevented := true, intent := Option.none }
    else
      { prevented := true, intent := some .split }
  else if ev.key = "Backspace" then
    if isEmpty then
      { prevented := true, intent := some .delete }
    else if headPos ≤ 1 then
      { prevented := true, intent := some (.merge .before) }
    else
      { prevented := false, intent := Option.none }
  else if ev.key = "Delete" then
    match targetTextLen? with
    | Option.some len =>
      if headPos > len then
        { prevented := true, intent := some (.merge .after) }
      else
        { prevented := false, intent := Option.none }
    | Option.none => { prevented := false, intent := Option.none }
  else
    { prevented := false, intent := Option.none }

/-! ## Operation sequences over the document (for the order/data invariant) -/

/-- One structural user operation on the document: clicking `+` on the block at
`idx - 1` (insert at `idx`), the delete intent on the block rendered at `idx`,
or a drag-end event. -/
inductive Op where
  | insert (idx : Nat)
  | delete (idx : Nat)
  | reorder (activeId : Nat) (overId? : Option Nat)
deriving DecidableEq, Repr

/-- Application state: the document plus the id counter standing for `cuid()`'s
global-uniqueness guarantee. -/
structure AppState where
  doc : Doc
  nextId : Nat
deriving DecidableEq, Repr

/-- One step of the controller. The delete intent handler exists only for a
rendered block, whose id is `order[idx]`. -/
def step (s : AppState) (op : Op) : AppState :=
  match op with
  | .insert idx =>
    { doc := insertNewBlock s.doc s.nextId idx, nextId := s.nextId + 1 }
  | .delete idx =>
    match s.doc.blocks.order[idx]? with
    | some id => { s with doc := (onDelete s.doc idx id).1 }
    | none => s
  | .reorder activeId overId? =>
    { s with doc := onDragEnd s.doc activeId overId? }

/-- The state at page load: `initialDoc` (whose single block uses id 0). -/
def initialState : AppState :=
  { doc := initialDoc, nextId := 1 }

/-- Run a sequence of operations from the initial single-block document. -/
def run (ops : List Op) : AppState :=
  ops.foldl step initialState

/-- Order/data consistency: `order` has no duplicates, its ids all have `data`
entries, and every `data` key occurs in `order` (hence, by `Nodup`, exactly
once). -/
def DocInv (d : Doc) : Prop :=
  d.blocks.order.Nodup
    ∧ (recKeys d.blocks.data).Nodup
    ∧ (∀ id ∈ d.blocks.order, id ∈ recKeys d.blocks.data)
    ∧ (∀ id ∈ recKeys d.blocks.data, id ∈ d.blocks.order)

instance (d : Doc) : Decidable (DocInv d) := by
  unfold DocInv
  infer_instance

/-- Strengthened invariant: consistency plus freshness of the id counter. -/
def StateInv (s : AppState) : Prop :=
  DocInv s.doc ∧ ∀ id ∈ s.doc.blocks.order, id < s.nextId

/-! ## Invariant preservation -/

theorem perm_getElem_cons_eraseIdx (l : List α) (i : Nat) (h : i < l.length) :
    l.Perm (l[i] :: l.eraseIdx i) := by
  conv_lhs => rw [← List.take_append_drop i l, List.drop_eq_getElem_cons h]
  rw [List.eraseIdx_eq_take_drop_succ]
  exact List.perm_middle

theorem recKeys_removeKey (data : List (Nat × Block)) (id : Nat) :
    recKeys (removeKey data id) = (recKeys data).filter (fun k => k != id) := by
  unfold recKeys removeKey
  rw [List.filter_map]
  rfl

theorem lookup_isSome_of_mem_recKeys (data : List (Nat × Block)) (id : Nat)
    (h : id ∈ recKeys data) : (List.lookup id data).isSome := by
  rw [List.lookup_isSome_iff]
  obtain ⟨⟨k, b⟩, hp, hfst⟩ := List.mem_map.mp h
  cases hfst
  exact ⟨(k, b), hp, by simp⟩

theorem stateInv_insert (s : AppState) (idx : Nat) (h : StateInv s) :
    StateInv (step s (.insert idx)) := by
  obtain ⟨⟨hnd, hndk, hok, hko⟩, hfresh⟩ := h
  have hkfresh : ∀ id ∈ recKeys s.doc.blocks.data, id < s.nextId :=
    fun id hid => hfresh id (hko id hid)
  have hperm : (spliceInsert s.doc.blocks.order idx s.nextId).Perm
      (s.nextId :: s.doc.blocks.order) :=
    List.perm_insertIdx _ _ (Nat.min_le_right _ _)
  have hnotin : s.nextId ∉ s.doc.blocks.order :=
    fun hc => Nat.lt_irrefl _ (hfresh _ hc)
  have hnotink : s.nextId ∉ recKeys s.doc.blocks.data :=
    fun hc => Nat.lt_irrefl _ (hkfresh _ hc)
  refine ⟨⟨?_, ?_, ?_, ?_⟩, ?_⟩
  · exact hperm.nodup_iff.mpr (List.nodup_cons.mpr ⟨hnotin, hnd⟩)
  · simpa [step, insertNewBlock, recKeys] using List.nodup_cons.mpr ⟨hnotink, hndk⟩
  · intro id hid
    have := hperm.mem_iff.mp hid
    rcases List.mem_cons.mp this with h1 | h1
    · simp [step, insertNewBlock, recKeys, h1]
    · simpa [step, insertNewBlock, recKeys] using Or.inr (hok id h1)
  · intro id hid
    simp only [step, insertNewBlock, recKeys, List.map_cons, List.mem_cons] at hid
    refine hperm.mem_iff.mpr (List.mem_cons.mpr ?_)
    rcases hid with h1 | h1
    · exact Or.inl h1
    · exact Or.inr (hko id h1)
  · intro id hid
    have := hperm.mem_iff.mp hid
    rcases List.mem_cons.mp this with h1 | h1
    · simp [step, h1]
    · exact Nat.lt_trans (hfresh id h1) (Nat.lt_succ_self _)

theorem stateInv_delete (s : AppState) (idx : Nat) (h : StateInv s) :
    StateInv (step s (.delete idx)) := by
  obtain ⟨⟨hnd, hndk, hok, hko⟩, hfresh⟩ := h
  show StateInv (match s.doc.blocks.order[idx]? with
    | some id => { s with doc := (onDelete s.doc idx id).1 }
    | none => s)
  cases hidx : s.doc.blocks.order[idx]? with
  | none => exact ⟨⟨hnd, hndk, hok, hko⟩, hfresh⟩
  | some id =>
    dsimp only
    show StateInv
      { s with
        doc :=
          { s.doc with
            blocks :=
              { order := s.doc.blocks.order.eraseIdx idx
                data := removeKey s.doc.blocks.data id } } }
    have hlt : idx < s.doc.blocks.order.length := by
      by_contra hc
      rw [List.getElem?_eq_none (Nat.le_of_not_lt hc)] at hidx
      exact Option.noConfusion hidx
    have hval : s.doc.blocks.order[idx] = id := by
      have := List.getElem?_eq_getElem hlt
      rw [hidx] at this
      exact (Option.some_injective _ this.symm)
    have hperm : s.doc.blocks.order.Perm (id :: s.doc.blocks.order.eraseIdx idx) := by
      have := perm_getElem_cons_eraseIdx s.doc.blocks.order idx hlt
      rwa [hval] at this
    have hnd' : (id :: s.doc.blocks.order.eraseIdx idx).Nodup := hperm.nodup_iff.mp hnd
    have hidout : id ∉ s.doc.blocks.order.eraseIdx idx := (List.nodup_cons.mp hnd').1
    refine ⟨⟨?_, ?_, ?_, ?_⟩, ?_⟩
    · exact (List.nodup_cons.mp hnd').2
    · show (recKeys (removeKey s.doc.blocks.data id)).Nodup
      rw [recKeys_removeKey]
      exact hndk.filter _
    · intro x hx
      have hxord : x ∈ s.doc.blocks.order := List.mem_of_mem_eraseIdx hx
      have hxne : x ≠ id := fun hc => hidout (hc ▸ hx)
      show x ∈ recKeys (removeKey s.doc.blocks.data id)
      rw [recKeys_removeKey, List.mem_filter]
      exact ⟨hok x hxord, by simpa using hxne⟩
    · intro x hx
      rw [recKeys_removeKey, List.mem_filter] at hx
      obtain ⟨hxk, hxne⟩ := hx
      have hxne' : x ≠ id := by simpa using hxne
      have : x ∈ s.doc.blocks.order := hko x hxk
      rcases List.mem_cons.mp (hperm.mem_iff.mp this) with h1 | h1
      · exact absurd h1 hxne'
      · exact h1
    · intro x hx
      exact hfresh x (List.mem_of_mem_eraseIdx hx)

theorem stateInv_reorder (s : AppState) (activeId : Nat) (overId? : Option Nat)
    (h : StateInv s) : StateInv (step s (.reorder activeId overId?)) := by
  obtain ⟨⟨hnd, hndk, hok, hko⟩, hfresh⟩ := h
  show StateInv { s with doc := onDragEnd s.doc activeId overId? }
  unfold onDragEnd
  cases overId? with
  | none => exact ⟨⟨hnd, hndk, hok, hko⟩, hfresh⟩
  | some overId =>
    simp only
    set order := s.doc.blocks.order with horder
    set oldStart := (match jsIndexOf order activeId with
      | some i => i
      | none => order.length - 1) with holdStart
    cases hold : order[oldStart]? with
    | none => exact ⟨⟨hnd, hndk, hok, hko⟩, hfresh⟩
    | some moved =>
      have hlt : oldStart < order.length := by
        by_contra hc
        rw [List.getElem?_eq_none (Nat.le_of_not_lt hc)] at hold
        exact Option.noConfusion hold
      have hval : order[oldStart] = moved := by
        have := List.getElem?_eq_getElem hlt
        rw [hold] at this
        exact (Option.some_injective _ this.symm)
      set rest := order.eraseIdx oldStart with hrest
      set newStart := (match jsIndexOf order overId with
        | some i => min i rest.length
        | none => rest.length - 1) with hnewStart
      have hle : newStart ≤ rest.length := by
        rw [hnewStart]
        cases jsIndexOf order overId with
        | some i => exact Nat.min_le_right _ _
        | none => exact Nat.sub_le _ _
      have hperm1 : (rest.insertIdx newStart moved).Perm (moved :: rest) :=
        List.perm_insertIdx _ _ hle
      have hperm2 : order.Perm (moved :: rest) := by
        have := perm_getElem_cons_eraseIdx order oldStart hlt
        rwa [hval] at this
      have hperm : (rest.insertIdx newStart moved).Perm order :=
        hperm1.trans hperm2.symm
      refine ⟨⟨hperm.nodup_iff.mpr hnd, hndk, ?_, ?_⟩, ?_⟩
      · intro x hx
        exact hok x (hperm.mem_iff.mp hx)
      · intro x hx
        exact hperm.mem_iff.mpr (hko x hx)
      · intro x hx
        exact hfresh x (hperm.mem_iff.mp hx)

theorem stateInv_step (s : AppState) (op : Op) (h : StateInv s) : StateInv (step s op) := by
  cases op with
  | insert idx => exact stateInv_insert s idx h
  | delete idx => exact stateInv_delete s idx h
  | reorder a o => exact stateInv_reorder s a o h

theorem stateInv_foldl (ops : List Op) (s : AppState) (h : StateInv s) :
    StateInv (ops.foldl step s) := by
  induction ops generalizing s with
  | nil => exact h
  | cons op rest ih => exact ih (step s op) (stateInv_step s op h)

theorem stateInv_initial : StateInv initialState := by
  refine ⟨⟨?_, ?_, ?_, ?_⟩, ?_⟩ <;> simp [initialState, initialDoc, recKeys]

theorem stateInv_run (ops : List Op) : StateInv (run ops) :=
  stateInv_foldl ops initialState stateInv_initial

/-- C1: after any sequence of insert, delete, and reorder operations starting
from the initial single-block document, `order` has no duplicate ids, every id
in `order` has a `data` entry, and every key of `data` appears exactly once in
`order`. -/
theorem c1_order_data_consistency (ops : List Op) :
    (run ops).doc.blocks.order.Nodup
      ∧ (∀ id ∈ (run ops).doc.blocks.order,
          (List.lookup id (run ops).doc.blocks.data).isSome)
      ∧ (∀ id ∈ recKeys (run ops).doc.blocks.data,
          (run ops).doc.blocks.order.count id = 1) := by
  obtain ⟨⟨hnd, hndk, hok, hko⟩, hfresh⟩ := stateInv_run ops
  refine ⟨hnd, ?_, ?_⟩
  · intro id hid
    exact lookup_isSome_of_mem_recKeys _ id (hok id hid)
  · intro id hid
    exact List.count_eq_one_of_mem hnd (hko id hid)

/-! ## Small helper lemmas -/

theorem string_take_self (s : String) : s.take s.length = s := by
  obtain ⟨d⟩ := s
  rw [String.take_eq]
  exact String.ext (by simp [String.length])

theorem string_drop_self (s : String) : s.drop s.length = "" := by
  obtain ⟨d⟩ := s
  rw [String.drop_eq]
  exact String.ext (by simp [String.length])

theorem getText_single (t : String) (cp co : Nat) (f : Bool) :
    EditorState.getText ⟨[t], cp, co, f⟩ = t := rfl

theorem lookup_mapSet_self {β : Type} (l : List (Nat × β)) (id : Nat) (b : β)
    (h : (List.lookup id l).isSome) :
    List.lookup id (l.map (fun p => if p.1 = id then (id, b) else p)) = some b := by
  induction l with
  | nil => simp at h
  | cons p rest ih =>
    obtain ⟨k, v⟩ := p
    rw [List.map_cons]
    by_cases hk : k = id
    · subst hk
      rw [if_pos rfl]
      simp
    · have hbeq : (id == k) = false :=
        beq_eq_false_iff_ne.mpr (fun hc => hk hc.symm)
      have h' : (List.lookup id rest).isSome := by
        rw [List.lookup_cons, hbeq] at h
        exact h
      rw [if_neg hk, List.lookup_cons, hbeq]
      exact ih h'

theorem lookup_mapSet_ne {β : Type} (l : List (Nat × β)) (id oid : Nat) (b : β)
    (h : oid ≠ id) :
    List.lookup oid (l.map (fun p => if p.1 = id then (id, b) else p)) =
      List.lookup oid l := by
  induction l with
  | nil => simp
  | cons p rest ih =>
    obtain ⟨k, v⟩ := p
    rw [List.map_cons]
    by_cases hk : k = id
    · subst hk
      have hbeq : (oid == k) = false := beq_eq_false_iff_ne.mpr h
      rw [if_pos rfl, List.lookup_cons, List.lookup_cons, hbeq]
      exact ih
    · rw [if_neg hk, List.lookup_cons, List.lookup_cons]
      cases hok : (oid == k) with
      | true => rfl
      | false => exact ih

theorem lookup_removeKey_self (data : List (Nat × Block)) (id : Nat) :
    List.lookup id (removeKey data id) = Option.none := by
  rw [List.lookup_eq_none_iff]
  intro p hp
  have h2 := (List.mem_filter.mp hp).2
  simp only [bne_iff_ne] at h2 ⊢
  exact fun hc => h2 hc.symm

theorem lookup_removeKey_ne (data : List (Nat × Block)) (id oid : Nat) (h : oid ≠ id) :
    List.lookup oid (removeKey data id) = List.lookup oid data := by
  induction data with
  | nil => simp [removeKey]
  | cons p rest ih =>
    obtain ⟨k, v⟩ := p
    show List.lookup oid (List.filter (fun p => p.1 != id) ((k, v) :: rest)) = _
    rw [List.filter_cons]
    by_cases hk : k = id
    · subst hk
      have hdrop : ¬(((k, v).1 != k) = true) := by simp
      have hbeq : (oid == k) = false := beq_eq_false_iff_ne.mpr h
      rw [if_neg hdrop, List.lookup_cons, hbeq]
      exact ih
    · have hkeep : ((k, v).1 != id) = true := bne_iff_ne.mpr hk
      rw [if_pos hkeep, List.lookup_cons, List.lookup_cons]
      cases hok : (oid == k) with
      | true => rfl
      | false => exact ih

theorem getElem?_insertIdx_of_lt (l : List α) (x : α) (n k : Nat) (hk : k < n)
    (hn : n ≤ l.length) : (l.insertIdx n x)[k]? = l[k]? := by
  have hk1 : k < l.length := Nat.lt_of_lt_of_le hk hn
  have hk2 : k < (l.insertIdx n x).length := by
    rw [List.length_insertIdx n l hn]
    omega
  rw [List.getElem?_eq_getElem hk1, List.getElem?_eq_getElem hk2]
  exact congrArg some (List.getElem_insertIdx_of_lt l x n k hk hk1)

theorem getElem?_insertIdx_self (l : List α) (x : α) (n : Nat) (hn : n ≤ l.length) :
    (l.insertIdx n x)[n]? = some x := by
  have hk2 : n < (l.insertIdx n x).length := by
    rw [List.length_insertIdx n l hn]
    omega
  rw [List.getElem?_eq_getElem hk2]
  exact congrArg some (List.getElem_insertIdx_self l x n hn)

/-! ## C3: content-change notification with an unknown id -/

/-- C3: contrary to the spec, a content-change notification for an id absent
from `data` does not no-op: `draft.blocks.data[id].content = value` writes a
property of `undefined` and throws a `TypeError` (here: id 999 against the
initial document). -/
theorem c3_update_absent_id_throws :
    updateBlockContent initialDoc 999 ["x"] = Except.error JsError.typeError := rfl

/-! ## C6: Enter-key dispatch -/

/-- C6 counterexample: Enter with Ctrl held (Shift up) *does* prevent the
default (`stopEvent()` runs before the modifier check), emitting no intent —
the claim says the default is not prevented. -/
theorem c6_ctrl_enter_counterexample :
    onKeydown ⟨"Enter", false, true, false, false⟩ false 0 Option.none =
      ⟨true, Option.none⟩ := rfl

/-- C6 (amended): Enter with Shift falls through natively (default not
prevented, no intent); Enter without Shift but with Ctrl, Meta, or Alt
prevents the default yet emits no intent; Enter with no modifiers prevents the
default and emits the split intent. -/
theorem c6_enter_key_dispatch (ev : KeyEvent) (isEmpty : Bool) (headPos : Nat)
    (targetTextLen? : Option Nat) (hkey : ev.key = "Enter") :
    (ev.shiftKey = true →
      onKeydown ev isEmpty headPos targetTextLen? = ⟨false, Option.none⟩)
    ∧ (ev.shiftKey = false → (ev.ctrlKey || ev.metaKey || ev.altKey) = true →
      onKeydown ev isEmpty headPos targetTextLen? = ⟨true, Option.none⟩)
    ∧ (ev.shiftKey = false → ev.ctrlKey = false → ev.metaKey = false →
        ev.altKey = false →
      onKeydown ev isEmpty headPos targetTextLen? = ⟨true, some Intent.split⟩) := by
  obtain ⟨k, sh, ct, mt, al⟩ := ev
  simp only at hkey
  subst hkey
  cases sh <;> cases ct <;> cases mt <;> cases al <;> simp [onKeydown]

/-- Witness for C6: Meta+Enter at a concrete event. -/
theorem c6_enter_key_dispatch_witness :
    onKeydown ⟨"Enter", false, false, true, false⟩ true 3 (some 2) =
      ⟨true, Option.none⟩ :=
  (c6_enter_key_dispatch ⟨"Enter", false, false, true, false⟩ true 3 (some 2)
    rfl).2.1 rfl rfl

/-! ## C7: merge no-ops at the document boundaries -/

/-- C7: merge "before" on the first block, and merge "after" on the last
block, both return the document (and registry) unchanged. -/
theorem c7_merge_boundary_noop (doc : Doc) (eds : Editors) (i id id2 : Nat)
    (hlast : i + 1 ≥ doc.blocks.order.length) :
    onMerge doc eds 0 id MergeDir.before = Except.ok (doc, eds)
    ∧ onMerge doc eds i id2 MergeDir.after = Except.ok (doc, eds) := by
  constructor
  · rfl
  · simp [onMerge, hlast]

/-- Witness for C7 on the initial one-block document. -/
theorem c7_merge_boundary_noop_witness :
    onMerge initialDoc [] 0 5 MergeDir.before = Except.ok (initialDoc, [])
    ∧ onMerge initialDoc [] 0 6 MergeDir.after = Except.ok (initialDoc, []) :=
  c7_merge_boundary_noop initialDoc [] 0 5 6 (by decide)

/-! ## C8: delete intent and focus scheduling -/

/-- C8 counterexample: deleting the block at index 0 of a two-block document
schedules focus for the *deleted* block's id (0) — read from the stale
pre-deletion order — not for the block occupying index 0 after the deletion
(id 1), which exists. -/
theorem c8_delete_focus_counterexample :
    (onDelete ⟨"testing", ⟨[0, 1], [(0, ⟨["x"]⟩), (1, ⟨["y"]⟩)]⟩⟩ 0 0).2 = some 0
    ∧ (onDelete ⟨"testing", ⟨[0, 1], [(0, ⟨["x"]⟩), (1, ⟨["y"]⟩)]⟩⟩
        0 0).1.blocks.order[0]? = some 1 := by
  exact ⟨rfl, rfl⟩

/-- C8 (amended): the delete intent removes the block via `deleteBlock(id)` and
schedules focus to the id at index `max(i-1, 0)` of the *pre-deletion* order
(when present).  For `i ≥ 1` that id is exactly the block occupying index
`i-1` after the deletion; for `i = 0` it is the just-deleted block itself,
whose focus request the missing-handle guard later drops. -/
theorem c8_delete_focus (doc : Doc) (i id : Nat) :
    (onDelete doc i id).1.blocks.order = doc.blocks.order.eraseIdx i
    ∧ (onDelete doc i id).1.blocks.data = removeKey doc.blocks.data id
    ∧ (onDelete doc i id).2 = doc.blocks.order[if 1 ≤ i then i - 1 else 0]?
    ∧ (1 ≤ i →
        (onDelete doc i id).2 = (onDelete doc i id).1.blocks.order[i - 1]?) := by
  refine ⟨rfl, rfl, rfl, ?_⟩
  intro hi
  show doc.blocks.order[if 1 ≤ i then i - 1 else 0]? =
    (doc.blocks.order.eraseIdx i)[i - 1]?
  rw [if_pos hi, List.getElem?_eraseIdx_of_lt _ _ _ (by omega)]

/-- Witness for C8 (amended) at a concrete two-block document. -/
theorem c8_delete_focus_witness :
    (onDelete ⟨"testing", ⟨[0, 1], [(0, ⟨["x"]⟩), (1, ⟨["y"]⟩)]⟩⟩ 1 1).2 =
      (onDelete ⟨"testing", ⟨[0, 1], [(0, ⟨["x"]⟩), (1, ⟨["y"]⟩)]⟩⟩
        1 1).1.blocks.order[1 - 1]? :=
  (c8_delete_focus ⟨"testing", ⟨[0, 1], [(0, ⟨["x"]⟩), (1, ⟨["y"]⟩)]⟩⟩ 1 1).2.2.2
    (by decide)

/-! ## C9: missing editor-handle guards -/

/-- C9 counterexample: `onSplit` invoked with an unregistered handle does not
defer or abort as a no-op — `editor.commands.enter()` dereferences `undefined`
and throws. -/
theorem c9_split_unregistered_counterexample :
    onSplit initialDoc [] 0 0 1 = Except.error JsError.typeError := rfl

/-- C9 (amended): `focusBlock` guards a missing handle (silent no-op), but
`onSplit` and the non-boundary `onMerge` paths dereference the unregistered
handle unchecked and fail with a `TypeError`. -/
theorem c9_handle_guard (doc : Doc) (eds : Editors) (id : Nat) (pos : FocusPos)
    (i newId : Nat) (h : eds.lookup id = Option.none) :
    focusBlock eds id pos = eds
    ∧ onSplit doc eds i id newId = Except.error JsError.typeError
    ∧ (i ≠ 0 → onMerge doc eds i id MergeDir.before = Except.error JsError.typeError)
    ∧ (i + 1 < doc.blocks.order.length →
        onMerge doc eds i id MergeDir.after = Except.error JsError.typeError) := by
  refine ⟨?_, ?_, ?_, ?_⟩
  · simp [focusBlock, h]
  · simp [onSplit, h]
  · intro hi
    simp [onMerge, hi, h]
  · intro hlt
    simp [onMerge, Nat.not_le.mpr hlt, h]

/-- Witness for C9 (amended): a three-block document, empty registry, middle
block. -/
theorem c9_handle_guard_witness :
    focusBlock [] 1 FocusPos.front = []
    ∧ onSplit ⟨"testing", ⟨[0, 1, 2], [(0, ⟨["x"]⟩), (1, ⟨["y"]⟩), (2, ⟨["z"]⟩)]⟩⟩
        [] 1 1 9 = Except.error JsError.typeError
    ∧ onMerge ⟨"testing", ⟨[0, 1, 2], [(0, ⟨["x"]⟩), (1, ⟨["y"]⟩), (2, ⟨["z"]⟩)]⟩⟩
        [] 1 1 MergeDir.before = Except.error JsError.typeError
    ∧ onMerge ⟨"testing", ⟨[0, 1, 2], [(0, ⟨["x"]⟩), (1, ⟨["y"]⟩), (2, ⟨["z"]⟩)]⟩⟩
        [] 1 1 MergeDir.after = Except.error JsError.typeError := by
  have h := c9_handle_guard
    ⟨"testing", ⟨[0, 1, 2], [(0, ⟨["x"]⟩), (1, ⟨["y"]⟩), (2, ⟨["z"]⟩)]⟩⟩
    [] 1 FocusPos.front 1 9 rfl
  exact ⟨h.1, h.2.1, h.2.2.1 (by decide), h.2.2.2 (by decide)⟩

/-! ## C2: merge "after" -/

/-- C2: at the failing input — blocks with texts `A` then `B`, merge "after"
at index 0 — the handler appends the *current* block's own text (the fetched
`nextEditor` is never used): the surviving session reads `AA`, not `AB`, while
block 1 (text `B`) is deleted from `order` and `data`. -/
theorem c2_merge_after_appends_own_text :
    onMerge ⟨"testing", ⟨[0, 1], [(0, ⟨["A"]⟩), (1, ⟨["B"]⟩)]⟩⟩
        [(0, ⟨["A"], 0, 1, true⟩), (1, ⟨["B"], 0, 0, false⟩)] 0 0 MergeDir.after =
      Except.ok
        (⟨"testing", ⟨[0], [(0, ⟨["A"]⟩)]⟩⟩,
         [(0, ⟨["AA"], 0, 1, true⟩), (1, ⟨["B"], 0, 0, false⟩)]) := rfl

/-! ## Helpers about distinct indices -/

theorem getElem?_ne_of_nodup (l : List Nat) (hnd : l.Nodup) (i j a b : Nat)
    (hi : l[i]? = some a) (hj : l[j]? = some b) (hij : i ≠ j) : a ≠ b := by
  obtain ⟨hi1, hi2⟩ := List.getElem?_eq_some_iff.mp hi
  obtain ⟨hj1, hj2⟩ := List.getElem?_eq_some_iff.mp hj
  intro hc
  apply hij
  refine (@List.Nodup.getElem_inj_iff _ l hnd i hi1 j hj1).mp ?_
  rw [hi2, hj2, hc]

theorem not_mem_eraseIdx_of_nodup (l : List Nat) (i a : Nat)
    (hnd : l.Nodup) (h : l[i]? = some a) : a ∉ l.eraseIdx i := by
  obtain ⟨hlt, hval⟩ := List.getElem?_eq_some_iff.mp h
  have hperm := perm_getElem_cons_eraseIdx l i hlt
  rw [hval] at hperm
  exact (List.nodup_cons.mp (hperm.nodup_iff.mp hnd)).1

/-! ## C5: merge "before" appends the block's text to its predecessor -/

/-- C5: merging "before" a block whose session holds text `T` into a
predecessor whose session holds text `P` leaves the predecessor session with
text `P ++ T` (caret at the former boundary `|P|`), removes the merged block
from both `order` and `data`, and shrinks `order` by exactly one. -/
theorem c5_merge_before_appends_text (doc : Doc) (eds : Editors) (i id pid : Nat)
    (currE prevE : EditorState) (P T : String)
    (hi : i ≠ 0)
    (hnd : doc.blocks.order.Nodup)
    (hoi : doc.blocks.order[i]? = some id)
    (hop : doc.blocks.order[i - 1]? = some pid)
    (hcur : eds.lookup id = some currE)
    (hprev : eds.lookup pid = some prevE)
    (hcurp : currE.paras = [T])
    (hprevp : prevE.paras = [P])
    (hprevcp : prevE.caretPara = 0) :
    onMerge doc eds i id MergeDir.before =
      Except.ok
        ({ doc with blocks :=
            { order := doc.blocks.order.eraseIdx i
              data := removeKey doc.blocks.data id } },
         eds.set pid ⟨[P ++ T], 0, P.length, true⟩)
    ∧ ((eds.set pid ⟨[P ++ T], 0, P.length, true⟩).lookup pid).map
        EditorState.getText = some (P ++ T)
    ∧ id ∉ doc.blocks.order.eraseIdx i
    ∧ List.lookup id (removeKey doc.blocks.data id) = Option.none
    ∧ (doc.blocks.order.eraseIdx i).length + 1 = doc.blocks.order.length := by
  obtain ⟨cpp, ccp, cco, cf⟩ := currE
  obtain ⟨ppp, pcp, pco, pf⟩ := prevE
  simp only at hcurp hprevp hprevcp
  subst hcurp
  subst hprevp
  subst hprevcp
  have hlt : i < doc.blocks.order.length := (List.getElem?_eq_some_iff.mp hoi).1
  refine ⟨?_, ?_, ?_, ?_, ?_⟩
  · simp only [onMerge, if_neg hi, hcur, hop, hprev, Option.some_bind, Option.map_some']
    simp only [EditorState.focus, EditorState.selectTextblockEnd, EditorState.curPara,
      EditorState.insertContent, EditorState.setTextSelection, getText_single,
      List.getD_cons_zero, List.set_cons_zero]
    rw [string_take_self, string_drop_self, String.append_empty]
  · have hsome : (List.lookup pid eds).isSome := by
      rw [show List.lookup pid eds = Editors.lookup eds pid from rfl, hprev]
      rfl
    have hset := lookup_mapSet_self eds pid
      (⟨[P ++ T], 0, P.length, true⟩ : EditorState) hsome
    rw [show (eds.set pid ⟨[P ++ T], 0, P.length, true⟩).lookup pid =
      some ⟨[P ++ T], 0, P.length, true⟩ from hset]
    rfl
  · exact not_mem_eraseIdx_of_nodup _ _ _ hnd hoi
  · exact lookup_removeKey_self _ _
  · rw [List.length_eraseIdx_of_lt hlt]
    omega

/-- Witness for C5: blocks `wo` and `rld`, merge "before" at index 1. -/
theorem c5_merge_before_appends_text_witness :
    ((Editors.set [(7, ⟨["wo"], 0, 0, false⟩), (8, ⟨["rld"], 0, 1, true⟩)] 7
        ⟨["wo" ++ "rld"], 0, "wo".length, true⟩).lookup 7).map EditorState.getText =
      some ("wo" ++ "rld") :=
  (c5_merge_before_appends_text
    ⟨"testing", ⟨[7, 8], [(7, ⟨["wo"]⟩), (8, ⟨["rld"]⟩)]⟩⟩
    [(7, ⟨["wo"], 0, 0, false⟩), (8, ⟨["rld"], 0, 1, true⟩)] 1 8 7
    ⟨["rld"], 0, 1, true⟩ ⟨["wo"], 0, 0, false⟩ "wo" "rld"
    (by decide) (by decide) rfl rfl rfl rfl rfl rfl rfl).2.1

/-! ## C4: split of a block `AB` with the caret in the middle -/

/-- C4: splitting a block whose session holds the single paragraph `AB` with
the caret between `A` and `B` leaves block `id` with content `A` at index `i`,
inserts a fresh block with content `B` at `i + 1`, grows `order` by exactly
one, and leaves every other block (and the rest of the order) unchanged. -/
theorem c4_split_ab (doc : Doc) (eds : Editors) (i id newId : Nat)
    (e : EditorState) (b : Block)
    (hoi : doc.blocks.order[i]? = some id)
    (hed : eds.lookup id = some e)
    (hparas : e.paras = ["AB"])
    (hcp : e.caretPara = 0)
    (hco : e.caretOff = 1)
    (hdata : List.lookup id doc.blocks.data = some b)
    (hne : id ≠ newId) :
    onSplit doc eds i id newId =
      Except.ok
        ({ doc with blocks :=
            { order := spliceInsert doc.blocks.order (i + 1) newId
              data := (newId, ⟨["B"]⟩) :: setKey doc.blocks.data id ⟨["A"]⟩ } },
         eds.set id ⟨["A"], 0, 0, e.focused⟩, newId)
    ∧ (spliceInsert doc.blocks.order (i + 1) newId)[i]? = some id
    ∧ (spliceInsert doc.blocks.order (i + 1) newId)[i + 1]? = some newId
    ∧ List.lookup id ((newId, (⟨["B"]⟩ : Block)) :: setKey doc.blocks.data id ⟨["A"]⟩) =
        some ⟨["A"]⟩
    ∧ List.lookup newId ((newId, (⟨["B"]⟩ : Block)) :: setKey doc.blocks.data id ⟨["A"]⟩) =
        some ⟨["B"]⟩
    ∧ (spliceInsert doc.blocks.order (i + 1) newId).length = doc.blocks.order.length + 1
    ∧ (spliceInsert doc.blocks.order (i + 1) newId).eraseIdx (i + 1) = doc.blocks.order
    ∧ ∀ oid, oid ≠ id → oid ≠ newId →
        List.lookup oid ((newId, (⟨["B"]⟩ : Block)) :: setKey doc.blocks.data id ⟨["A"]⟩) =
          List.lookup oid doc.blocks.data := by
  obtain ⟨ep, ecp, eco, ef⟩ := e
  simp only at hparas hcp hco
  subst hparas
  subst hcp
  subst hco
  have hlt : i < doc.blocks.order.length := (List.getElem?_eq_some_iff.mp hoi).1
  have hle : i + 1 ≤ doc.blocks.order.length := hlt
  refine ⟨?_, ?_, ?_, ?_, ?_, ?_, ?_, ?_⟩
  · simp only [onSplit, hed, hdata]
    rfl
  · simp only [spliceInsert]
    rw [min_eq_left hle,
      getElem?_insertIdx_of_lt _ _ _ _ (Nat.lt_succ_self i) hle, hoi]
  · simp only [spliceInsert]
    rw [min_eq_left hle, getElem?_insertIdx_self _ _ _ hle]
  · have hbeq : (id == newId) = false := beq_eq_false_iff_ne.mpr hne
    rw [List.lookup_cons, hbeq]
    exact lookup_mapSet_self _ _ _ (by rw [hdata]; rfl)
  · simp
  · simp only [spliceInsert]
    rw [List.length_insertIdx _ _ (Nat.min_le_right _ _)]
  · simp only [spliceInsert]
    rw [min_eq_left hle, List.eraseIdx_insertIdx]
  · intro oid h1 h2
    have hbeq : (oid == newId) = false := beq_eq_false_iff_ne.mpr h2
    rw [List.lookup_cons, hbeq]
    exact lookup_mapSet_ne _ _ _ _ h1

/-- Witness for C4: a one-block document holding `AB`, caret at offset 1. -/
theorem c4_split_ab_witness :
    List.lookup 0 ((1, (⟨["B"]⟩ : Block)) ::
      setKey [(0, (⟨["AB"]⟩ : Block))] 0 ⟨["A"]⟩) = some ⟨["A"]⟩ :=
  (c4_split_ab ⟨"testing", ⟨[0], [(0, ⟨["AB"]⟩)]⟩⟩ [(0, ⟨["AB"], 0, 1, false⟩)]
    0 0 1 ⟨["AB"], 0, 1, false⟩ ⟨["AB"]⟩ rfl rfl rfl rfl rfl rfl
    (by decide)).2.2.2.1

/-! ## C10: the merge handler's document update is a pure removal -/

/-- C10: when neither boundary no-op applies (and the dereferenced handles are
registered, so the handler completes), the only document change a merge makes
is dropping the merged block's id from `order` and its entry from `data`; the
surviving block's stored content is untouched — the combined text lives only
in the editor session. -/
theorem c10_merge_frame (doc : Doc) (eds : Editors) (i id pid nid : Nat)
    (currE : EditorState)
    (hnd : doc.blocks.order.Nodup)
    (hoi : doc.blocks.order[i]? = some id)
    (hcur : eds.lookup id = some currE) :
    ((i ≠ 0 ∧ doc.blocks.order[i - 1]? = some pid ∧ (∃ pe, eds.lookup pid = some pe)) →
      ∃ eds₂,
        onMerge doc eds i id MergeDir.before =
          Except.ok
            ({ doc with blocks :=
                { order := doc.blocks.order.eraseIdx i
                  data := removeKey doc.blocks.data id } }, eds₂)
        ∧ List.lookup pid (removeKey doc.blocks.data id) =
            List.lookup pid doc.blocks.data)
    ∧ ((i + 1 < doc.blocks.order.length ∧ doc.blocks.order[i + 1]? = some nid) →
      ∃ eds₂,
        onMerge doc eds i id MergeDir.after =
          Except.ok
            ({ doc with blocks :=
                { order := doc.blocks.order.eraseIdx (i + 1)
                  data := removeKey doc.blocks.data nid } }, eds₂)
        ∧ List.lookup id (removeKey doc.blocks.data nid) =
            List.lookup id doc.blocks.data) := by
  constructor
  · rintro ⟨hi, hop, pe, hpe⟩
    have hpid : pid ≠ id :=
      getElem?_ne_of_nodup _ hnd (i - 1) i pid id hop hoi (by omega)
    refine ⟨eds.set pid
        (((pe.focus.selectTextblockEnd).insertContent currE.getText).setTextSelection
          (pe.focus.selectTextblockEnd).caretPara
          (pe.focus.selectTextblockEnd).caretOff), ?_, ?_⟩
    · simp only [onMerge, if_neg hi, hcur, hop, hpe, Option.some_bind, Option.map_some']
    · exact lookup_removeKey_ne _ _ _ hpid
  · rintro ⟨hlt, hon⟩
    have hge : ¬(i + 1 ≥ doc.blocks.order.length) := by omega
    have hid : id ≠ nid :=
      getElem?_ne_of_nodup _ hnd i (i + 1) id nid hoi hon (by omega)
    refine ⟨eds.set id
        (((currE.focus.selectTextblockEnd).insertContent currE.getText).setTextSelection
          (currE.focus.selectTextblockEnd).caretPara
          (currE.focus.selectTextblockEnd).caretOff), ?_, ?_⟩
    · simp only [onMerge, if_neg hge, hcur, List.getD_eq_getElem?_getD, hon,
        Option.getD_some]
    · exact lookup_removeKey_ne _ _ _ hid

/-- Witness for C10: the middle block of a three-block document, both merge
directions. -/
theorem c10_merge_frame_witness :
    List.lookup 3 (removeKey [(3, (⟨["a"]⟩ : Block)), (4, ⟨["b"]⟩), (5, ⟨["c"]⟩)] 4) =
      List.lookup 3 [(3, (⟨["a"]⟩ : Block)), (4, ⟨["b"]⟩), (5, ⟨["c"]⟩)]
    ∧ List.lookup 4 (removeKey [(3, (⟨["a"]⟩ : Block)), (4, ⟨["b"]⟩), (5, ⟨["c"]⟩)] 5) =
      List.lookup 4 [(3, (⟨["a"]⟩ : Block)), (4, ⟨["b"]⟩), (5, ⟨["c"]⟩)] := by
  have h := c10_merge_frame
    ⟨"testing", ⟨[3, 4, 5], [(3, ⟨["a"]⟩), (4, ⟨["b"]⟩), (5, ⟨["c"]⟩)]⟩⟩
    [(3, ⟨["a"], 0, 0, false⟩), (4, ⟨["b"], 0, 0, false⟩), (5, ⟨["c"], 0, 0, false⟩)]
    1 4 3 5 ⟨["b"], 0, 0, false⟩ (by decide) rfl rfl
  obtain ⟨e1, h1, hf1⟩ := h.1 ⟨by decide, rfl, ⟨⟨["a"], 0, 0, false⟩, rfl⟩⟩
  obtain ⟨e2, h2, hf2⟩ := h.2 ⟨by decide, rfl⟩
  exact ⟨hf1, hf2⟩

end Mdxcity
